import Mathlib

/-!
Shallow embedding of the book-recommendation engine of this repository
(`backend/src/services/recommendation.ts`).

Conventions of the embedding:
* JavaScript numbers are modelled as exact rationals (`ℚ`).
* A JavaScript `Map` built by `set` calls on pairwise-distinct keys is
  modelled as an association list in insertion order; lookup with
  `map.get(k) || 0` becomes `(alookup k m).getD 0`.
* `Math.log` and `Math.sqrt` are irrational-valued, so the engine is
  parametrised by the functions `logFn sqrtFn : ℚ → ℚ`; theorems that
  depend on their behaviour take the properties of the real functions
  as hypotheses.
* `Date.now()` is an ambient clock, not a caller argument; it is made
  explicit as the parameter `now` of `getPersonalizedRecommendations`
  (milliseconds, matching `getTime()`); `created_at` is modelled as the
  millisecond timestamp `new Date(created_at).getTime()` of the stored
  date string.
* The helper module `tfidf.ts` (`calculateTFIDF`, `cosineSimilarity`)
  is not part of the available sources; those two functions are
  modelled from the spec (see their doc comments).
-/

/-- JavaScript `\w` word characters: ASCII letters, digits, underscore. -/
def isWordChar (c : Char) : Bool := c.isAlphanum || c == '_'

/-- `s.toLowerCase()`. -/
def lowerStr (s : String) : String := ⟨s.data.map Char.toLower⟩

/-- Maximal runs of word characters in a character list. -/
def tokensOf : List Char → List (List Char)
  | [] => []
  | c :: cs =>
    if isWordChar c then (c :: cs.takeWhile isWordChar) :: tokensOf (cs.dropWhile isWordChar)
    else tokensOf cs
termination_by l => l.length
decreasing_by
  · exact Nat.lt_succ_of_le (List.dropWhile_sublist _).length_le
  · exact Nat.lt_succ_self _

/-- Modelled from the spec: the Term Extractor. "A term is a maximal run
of word characters after lower-casing; punctuation and whitespace are
separators." -/
def tokenize (s : String) : List String :=
  (tokensOf (s.data.map Char.toLower)).map (fun cs => String.mk cs)

/-- `s.trim()` on a character list (ASCII whitespace). -/
def trimChars (l : List Char) : List Char :=
  ((l.dropWhile Char.isWhitespace).reverse.dropWhile Char.isWhitespace).reverse

/-- `s.split(',')` on a character list. -/
def splitComma : List Char → List (List Char)
  | [] => [[]]
  | c :: cs =>
    if c = ',' then [] :: splitComma cs
    else
      match splitComma cs with
      | [] => [[c]]
      | t :: ts => (c :: t) :: ts

/-- `genre_name.split(',').map(g => g.trim().toLowerCase())`. -/
def splitGenres (s : String) : List String :=
  (splitComma s.data).map (fun cs => String.mk ((trimChars cs).map Char.toLower))

/-- Does `l` start with `pat`? -/
def startsWithSeq : List Char → List Char → Bool
  | _, [] => true
  | [], _ :: _ => false
  | c :: cs, d :: ds => c == d && startsWithSeq cs ds

/-- Does `l` contain `pat` as a contiguous subsequence?
Models JavaScript `String.prototype.includes`. -/
def containsSeq (pat : List Char) : List Char → Bool
  | [] => startsWithSeq [] pat
  | c :: cs => startsWithSeq (c :: cs) pat || containsSeq pat cs

/-- JavaScript truthiness of the optional `genre_name` field:
`undefined`/`null` (here `none`) and the empty string are falsy. -/
def genreTruthy : Option String → Bool
  | none => false
  | some s => !s.isEmpty

/-- First-occurrence deduplication; models iterating a JavaScript `Set`
built by successive `add` calls. -/
def dedupFirstAux [DecidableEq α] (seen : List α) : List α → List α
  | [] => []
  | x :: xs => if x ∈ seen then dedupFirstAux seen xs else x :: dedupFirstAux (x :: seen) xs

/-- First-occurrence deduplication of a list. -/
def dedupFirst [DecidableEq α] (l : List α) : List α := dedupFirstAux [] l

/-- Insertion step of an ascending lexicographic string sort (`Array.prototype.sort()`
with its default string comparator). -/
def insertStr (x : String) : List String → List String
  | [] => [x]
  | y :: ys => if x < y then x :: y :: ys else y :: insertStr x ys

/-- Ascending lexicographic string sort. -/
def sortStrs (l : List String) : List String := l.foldr insertStr []

/-- Association-list lookup with propositional key equality; models
`Map.get` returning `undefined` (`none`) for an absent key. -/
def alookup [DecidableEq κ] (k : κ) : List (κ × ℚ) → Option ℚ
  | [] => none
  | (k', v) :: rest => if k = k' then some v else alookup k rest

/-- The `Book` record of `types.ts`, restricted to the fields the engine
reads. `view_count` and `created_at` are optional in the rows the engine
receives; `created_at` is the millisecond timestamp of the stored date. -/
structure Book where
  id : ℤ
  title : String
  author : String
  synopsis : Option String
  genre_name : Option String
  view_count : Option ℚ
  created_at : Option ℚ
deriving DecidableEq, Repr

/-- Placeholder used only as the default of in-range `List.getD` calls. -/
def dummyBook : Book := ⟨0, "", "", none, none, none, none⟩

/-- `BookWithSimilarity = { ...book, similarity }`: the spread keeps every
`Book` field, so the pair of the book and its score is a faithful model. -/
structure BookWithSimilarity where
  book : Book
  similarity : ℚ
deriving DecidableEq, Repr

/-- Number of occurrences of term `t` in document `d`. -/
def countTerm (t : String) (d : List String) : ℕ :=
  (d.filter (fun u => decide (u = t))).length

/-- Modelled from the spec: "term frequency for a term in a document =
(count of that term in the document) / (total term count in the document)". -/
def termFreq (t : String) (d : List String) : ℚ :=
  (countTerm t d : ℚ) / (d.length : ℚ)

/-- Number of documents containing term `t`. -/
def docFreq (t : String) (docs : List (List String)) : ℕ :=
  (docs.filter (fun d => decide (t ∈ d))).length

/-- Modelled from the spec: "inverse document frequency for a term =
log(N / document frequency of that term), where document frequency is
floored at 1". `logFn` stands for `Math.log`. -/
def idf (logFn : ℚ → ℚ) (n df : ℕ) : ℚ :=
  logFn ((n : ℚ) / (max df 1 : ℕ))

/-- The sparse TF-IDF vector of one document: one entry per distinct term
of the document, in first-occurrence order. -/
def tfidfVector (logFn : ℚ → ℚ) (docs : List (List String)) (d : List String) :
    List (String × ℚ) :=
  (dedupFirst d).map (fun t => (t, termFreq t d * idf logFn docs.length (docFreq t docs)))

/-- Modelled from the spec: `calculateTFIDF` of the missing `tfidf.ts`.
"turns a collection of documents (one text field across all items) into
per-document sparse term-weight vectors"; weight = TF × IDF, and "a
document with zero terms yields an empty vector". -/
def calculateTFIDF (logFn : ℚ → ℚ) (texts : List String) : List (List (String × ℚ)) :=
  let docs := texts.map tokenize
  docs.map (tfidfVector logFn docs)

/-- Qualified keys of a combined vector. `FKey.title t` models the string
key `title_` ++ t, `FKey.genre i` models `genre_` ++ toString i, and
`FKey.syn t` models `synopsis_` ++ t; since the three prefixes are
distinct and the suffix is appended verbatim, this tagging has exactly
the equality semantics of the string keys. -/
inductive FKey where
  | title (t : String)
  | genre (i : ℕ)
  | syn (t : String)
deriving DecidableEq, Repr

/-- `combineVectors` of `recommendation.ts`: one `title_` key per term of
the corpus-wide title vocabulary, one `genre_` key per genre-vector index,
one `synopsis_` key per term of the synopsis vocabulary. The source
builds a `Map` by `set` calls on these pairwise-distinct keys in this
order, which is the association list below. -/
def combineVectors (titleVec : List (String × ℚ)) (genreVec : List ℚ)
    (synopsisVec : List (String × ℚ)) (allTitleTerms allSynopsisTerms : List String) :
    List (FKey × ℚ) :=
  allTitleTerms.map (fun t => (FKey.title t, (alookup t titleVec).getD 0))
    ++ (List.range genreVec.length).map (fun j => (FKey.genre j, genreVec.getD j 0))
    ++ allSynopsisTerms.map (fun t => (FKey.syn t, (alookup t synopsisVec).getD 0))

/-- Dot product of two sparse vectors, iterating the entries of the first
and looking each key up in the second (`b.get(k) || 0`). -/
def dotProd (a b : List (FKey × ℚ)) : ℚ :=
  (a.map (fun e => e.2 * (alookup e.1 b).getD 0)).sum

/-- Sum of squared weights of a sparse vector. -/
def normSq (a : List (FKey × ℚ)) : ℚ :=
  (a.map (fun e => e.2 * e.2)).sum

/-- Modelled from the spec: `cosineSimilarity` of the missing `tfidf.ts`.
"dot product divided by the product of Euclidean norms, yielding 0 if
either norm is 0". `sqrtFn` stands for `Math.sqrt`; a norm is 0 exactly
when the corresponding sum of squares is 0. -/
def cosineSimilarity (sqrtFn : ℚ → ℚ) (a b : List (FKey × ℚ)) : ℚ :=
  if normSq a = 0 ∨ normSq b = 0 then 0
  else dotProd a b / (sqrtFn (normSq a) * sqrtFn (normSq b))

/-- `createGenreVector` of `recommendation.ts`: multi-hot encoding of a
book's genres over the corpus-wide genre list; all-zero when
`genre_name` is falsy. -/
def createGenreVector (b : Book) (allGenres : List String) : List ℚ :=
  if genreTruthy b.genre_name then
    let bookGenres := splitGenres (b.genre_name.getD "")
    allGenres.map (fun g => if lowerStr g ∈ bookGenres then 1 else 0)
  else allGenres.map (fun _ => 0)

/-- `extractAllGenres` of `recommendation.ts`: the sorted set of distinct
trimmed lower-cased genre labels of the books with truthy `genre_name`. -/
def extractAllGenres (books : List Book) : List String :=
  sortStrs (dedupFirst (books.flatMap (fun b =>
    if genreTruthy b.genre_name then splitGenres (b.genre_name.getD "") else [])))

/-- The defensive filter at the top of `getRecommendations`: books whose
`genre_name` is falsy are skipped (with a console warning). -/
def validBooksOf (allBooks : List Book) : List Book :=
  allBooks.filter (fun b => genreTruthy b.genre_name)

/-- Step 3 of `getRecommendations`: TF-IDF vectors of the titles. -/
def titleTFIDFOf (logFn : ℚ → ℚ) (validBooks : List Book) : List (List (String × ℚ)) :=
  calculateTFIDF logFn (validBooks.map (fun b => b.title))

/-- Step 4 of `getRecommendations`: TF-IDF vectors of the synopses
(`book.synopsis || ''`). -/
def synopsisTFIDFOf (logFn : ℚ → ℚ) (validBooks : List Book) : List (List (String × ℚ)) :=
  calculateTFIDF logFn (validBooks.map (fun b => b.synopsis.getD ""))

/-- Step 5 of `getRecommendations`: the corpus-wide title vocabulary, in
first-insertion order of the `Set` built from all title vectors. -/
def allTitleTermsOf (logFn : ℚ → ℚ) (validBooks : List Book) : List String :=
  dedupFirst ((titleTFIDFOf logFn validBooks).flatMap (fun v => v.map (fun e => e.1)))

/-- Step 5 of `getRecommendations`: the corpus-wide synopsis vocabulary. -/
def allSynopsisTermsOf (logFn : ℚ → ℚ) (validBooks : List Book) : List String :=
  dedupFirst ((synopsisTFIDFOf logFn validBooks).flatMap (fun v => v.map (fun e => e.1)))

/-- Step 2 of `getRecommendations`: the genre multi-hot vectors. -/
def genreVectorsOf (validBooks : List Book) : List (List ℚ) :=
  validBooks.map (fun b => createGenreVector b (extractAllGenres validBooks))

/-- Step 6 of `getRecommendations`: the combined feature vector of every
valid book (`titleTFIDF.get(index) || new Map()` is `getD index []`). -/
def combinedVectorsOf (logFn : ℚ → ℚ) (validBooks : List Book) : List (List (FKey × ℚ)) :=
  (List.range validBooks.length).map (fun i =>
    combineVectors ((titleTFIDFOf logFn validBooks).getD i [])
      ((genreVectorsOf validBooks).getD i [])
      ((synopsisTFIDFOf logFn validBooks).getD i [])
      (allTitleTermsOf logFn validBooks) (allSynopsisTermsOf logFn validBooks))

/-- `Array.prototype.findIndex`, with `-1` modelled as `none`. -/
def firstMatchIdx (p : α → Bool) : List α → Option ℕ
  | [] => none
  | x :: xs => if p x then some 0 else (firstMatchIdx p xs).map (· + 1)

/-- Insertion step of the stable descending sort by score. An element
moves past another only when its score is strictly greater, which is the
ECMAScript-mandated stable behaviour of
`arr.sort((a, b) => b.score - a.score)`. -/
def insertPair (x : α × ℚ) : List (α × ℚ) → List (α × ℚ)
  | [] => [x]
  | y :: ys => if y.2 ≤ x.2 then x :: y :: ys else y :: insertPair x ys

/-- Stable descending sort by score of a list of (payload, score) pairs. -/
def sortPairsDesc (l : List (α × ℚ)) : List (α × ℚ) := l.foldr insertPair []

/-- Step 8 of `getRecommendations`: the similarity of every valid book
other than the target, in valid-book order. -/
def similaritiesOf (logFn sqrtFn : ℚ → ℚ) (validBooks : List Book) (targetIndex : ℕ) :
    List (Book × ℚ) :=
  ((List.range validBooks.length).filter (fun i => decide (i ≠ targetIndex))).map
    (fun i => (validBooks.getD i dummyBook,
      cosineSimilarity sqrtFn ((combinedVectorsOf logFn validBooks).getD targetIndex [])
        ((combinedVectorsOf logFn validBooks).getD i [])))

/-- The scored candidate list of `getRecommendations` (everything before
the sort), or `[]` when the target is not among the valid books. -/
def recCandidatesOf (logFn sqrtFn : ℚ → ℚ) (targetBook : Book) (allBooks : List Book) :
    List (Book × ℚ) :=
  match firstMatchIdx (fun b => decide (b.id = targetBook.id)) (validBooksOf allBooks) with
  | none => []
  | some targetIndex => similaritiesOf logFn sqrtFn (validBooksOf allBooks) targetIndex

/-- `getRecommendations` of `recommendation.ts`. -/
def getRecommendations (logFn sqrtFn : ℚ → ℚ) (targetBook : Book) (allBooks : List Book)
    (topN : ℕ) : List BookWithSimilarity :=
  if (validBooksOf allBooks).length = 0 then []
  else
    match firstMatchIdx (fun b => decide (b.id = targetBook.id)) (validBooksOf allBooks) with
    | none => []
    | some targetIndex =>
      ((sortPairsDesc (similaritiesOf logFn sqrtFn (validBooksOf allBooks) targetIndex)).take
        topN).map (fun p => ⟨p.1, p.2⟩)

/-- The search predicate of `getRecommendationsByTitle`:
`book.title.toLowerCase().includes(title.toLowerCase())`. -/
def titleMatches (query : String) (b : Book) : Bool :=
  containsSeq (lowerStr query).data (lowerStr b.title).data

/-- `getRecommendationsByTitle` of `recommendation.ts`. -/
def getRecommendationsByTitle (logFn sqrtFn : ℚ → ℚ) (query : String)
    (allBooks : List Book) (topN : ℕ) : List BookWithSimilarity :=
  match allBooks.find? (titleMatches query) with
  | none => []
  | some targetBook => getRecommendations logFn sqrtFn targetBook allBooks topN

/-- The `bookPopularity` map of `getPersonalizedRecommendations`:
`book.id ↦ book.view_count || 0` over `allBooks`, later `set` calls
overwriting earlier ones, looked up with `get(id) || 0`. -/
def popLookup (allBooks : List Book) (i : ℤ) : ℚ :=
  ((allBooks.reverse.find? (fun b => decide (b.id = i))).map
    (fun b => b.view_count.getD 0)).getD 0

/-- `maxPopularity = Math.max(...bookPopularity.values(), 1)`: the map's
values are one per distinct id (last write wins), in first-insertion
key order. -/
def maxPopularity (allBooks : List Book) : ℚ :=
  ((dedupFirst (allBooks.map (fun b => b.id))).map (popLookup allBooks)).foldr max 1

/-- `totalUserViews`: sum of the values of the user genre profile. -/
def totalProfileWeight (profile : List (String × ℚ)) : ℚ :=
  (profile.map (fun e => e.2)).sum

/-- The per-candidate score of `getPersonalizedRecommendations`: genre
match (weight 0.4, skipped for falsy `genre_name`), popularity
(weight 0.3) and recency (weight 0.3, skipped without `created_at`);
`now` is the ambient `Date.now()` in milliseconds. -/
def scoreOf (now : ℚ) (profile : List (String × ℚ)) (allBooks : List Book) (b : Book) : ℚ :=
  (if genreTruthy b.genre_name then
    ((splitGenres (b.genre_name.getD "")).map (fun g => (alookup g profile).getD 0)).sum
      / max (totalProfileWeight profile) 1 * (4 / 10)
   else 0)
  + popLookup allBooks b.id / maxPopularity allBooks * (3 / 10)
  + (match b.created_at with
     | none => 0
     | some t => max 0 (1 - (now - t) / 86400000 / 365) * (3 / 10))

/-- `getPersonalizedRecommendations` of `recommendation.ts`; `now` is the
ambient clock read by `Date.now()`. -/
def getPersonalizedRecommendations (now : ℚ) (profile : List (String × ℚ))
    (candidateBooks allBooks : List Book) (topN : ℕ) : List BookWithSimilarity :=
  if candidateBooks.length = 0 then []
  else
    ((sortPairsDesc (candidateBooks.map (fun b => (b, scoreOf now profile allBooks b)))).take
      (min (max topN 10) 20)).map (fun p => ⟨p.1, p.2⟩)

/-- The canonical key list shared by every combined vector of one call:
one title-tagged key per title-vocabulary term, one genre-tagged key per
genre-vocabulary index, one synopsis-tagged key per synopsis-vocabulary
term. -/
def allKeysOf (logFn : ℚ → ℚ) (validBooks : List Book) : List FKey :=
  (allTitleTermsOf logFn validBooks).map FKey.title
    ++ (List.range (extractAllGenres validBooks).length).map FKey.genre
    ++ (allSynopsisTermsOf logFn validBooks).map FKey.syn

/-- Written from the spec's wording: "genreAffinity = (sum of
`userGenreProfile[label]` over the item's genre labels, 0 if the item has
none) / totalProfileWeight", the total being floored at 1. -/
def genreAffinity (profile : List (String × ℚ)) (b : Book) : ℚ :=
  (if genreTruthy b.genre_name then
    ((splitGenres (b.genre_name.getD "")).map (fun g => (alookup g profile).getD 0)).sum
   else 0) / max (totalProfileWeight profile) 1

/-- Written from the spec's wording: "popularityScore = popularity(item) /
maxPopularity", the popularity drawn from the full corpus (0 if absent)
and the maximum floored at 1. -/
def popularityScore (allBooks : List Book) (b : Book) : ℚ :=
  popLookup allBooks b.id / maxPopularity allBooks

/-- Written from the spec's wording: "recencyScore = max(0, 1 −
ageInDays(item.createdAt) / 365); items with no creation timestamp
contribute 0 here". -/
def recencyScore (now : ℚ) (b : Book) : ℚ :=
  match b.created_at with
  | none => 0
  | some t => max 0 (1 - (now - t) / 86400000 / 365)

/-- A concrete stand-in for `Math.log` used by witnesses; it is
non-negative on `[1, ∞)` like the real logarithm. -/
def idLog : ℚ → ℚ := fun q => q

/-- A concrete stand-in for `Math.sqrt` used by witnesses; it is
non-negative and its square dominates the argument on `[0, ∞)`, the two
properties of the real square root the theorems use. -/
def addOneSqrt : ℚ → ℚ := fun q => q + 1

/-! ### Concrete books used by witnesses and counterexamples -/

/-- A valid book with id 1. -/
def bkW1 : Book := ⟨1, "a", "x", none, some "f", none, none⟩

/-- A valid book with id 2. -/
def bkW2 : Book := ⟨2, "b", "y", none, some "f", none, none⟩

/-- A valid book that ALSO has id 1 but a different title. -/
def bkDup : Book := ⟨1, "b", "y", none, some "f", none, none⟩

/-- A book with a creation timestamp (epoch 0) and no genre. -/
def bkClock : Book := ⟨1, "x", "a", none, none, none, some 0⟩

/-- A book with no genre whose title contains "x". -/
def bkM1 : Book := ⟨1, "x1", "a", none, none, none, none⟩

/-- A valid book sharing id 1 whose title contains "x". -/
def bkM2 : Book := ⟨1, "x2", "b", none, some "f", none, none⟩

/-- A valid book with id 2 whose title contains "x". -/
def bkM3 : Book := ⟨2, "x3", "c", none, some "f", none, none⟩

/-- A book with no genre whose title contains "q". -/
def bkInv : Book := ⟨1, "q", "a", none, none, none, none⟩

/-- A valid book with id 2 whose title does not contain "q". -/
def bkVal : Book := ⟨2, "r", "b", none, some "f", none, none⟩

/-- A book without genre information. -/
def bkNoGenre : Book := ⟨5, "t", "a", none, none, none, none⟩

/-- A valid book with id 3, used as a target absent from a corpus. -/
def bkW3 : Book := ⟨3, "c", "z", none, some "f", none, none⟩

/-! ### Generic lemmas about the sort, lookup and deduplication helpers -/

theorem mem_insertPair {α} {x y : α × ℚ} {l : List (α × ℚ)} (h : x ∈ insertPair y l) :
    x = y ∨ x ∈ l := by
  induction l with
  | nil => simpa [insertPair] using h
  | cons z zs ih =>
    rw [insertPair] at h
    split at h
    · rcases List.mem_cons.mp h with h' | h'
      · exact Or.inl h'
      · exact Or.inr h'
    · rcases List.mem_cons.mp h with h' | h'
      · exact Or.inr (List.mem_cons.mpr (Or.inl h'))
      · rcases ih h' with h'' | h''
        · exact Or.inl h''
        · exact Or.inr (List.mem_cons.mpr (Or.inr h''))

theorem mem_sortPairsDesc {α} {x : α × ℚ} {l : List (α × ℚ)} (h : x ∈ sortPairsDesc l) :
    x ∈ l := by
  induction l with
  | nil => exact absurd h (by simp [sortPairsDesc])
  | cons y ys ih =>
    rcases mem_insertPair (show x ∈ insertPair y (sortPairsDesc ys) from h) with h' | h'
    · exact List.mem_cons.mpr (Or.inl h')
    · exact List.mem_cons.mpr (Or.inr (ih h'))

theorem length_insertPair {α} (x : α × ℚ) (l : List (α × ℚ)) :
    (insertPair x l).length = l.length + 1 := by
  induction l with
  | nil => rfl
  | cons y ys ih =>
    rw [insertPair]
    split
    · rfl
    · simp [ih]

theorem length_sortPairsDesc {α} (l : List (α × ℚ)) :
    (sortPairsDesc l).length = l.length := by
  induction l with
  | nil => rfl
  | cons y ys ih =>
    show (insertPair y (sortPairsDesc ys)).length = ys.length + 1
    rw [length_insertPair, ih]

theorem filter_insertPair {α} (s : ℚ) (x : α × ℚ) (l : List (α × ℚ)) :
    (insertPair x l).filter (fun p => decide (p.2 = s)) =
      if x.2 = s then x :: l.filter (fun p => decide (p.2 = s))
      else l.filter (fun p => decide (p.2 = s)) := by
  induction l with
  | nil => by_cases hx : x.2 = s <;> simp [insertPair, hx]
  | cons y ys ih =>
    rw [insertPair]
    split
    · by_cases hx : x.2 = s <;> simp [List.filter_cons, hx]
    · rename_i hord
      have hlt : x.2 < y.2 := lt_of_not_le hord
      by_cases hy : y.2 = s
      · have hx : ¬ x.2 = s := fun hx => absurd (hx ▸ hy ▸ hlt) (lt_irrefl _)
        simp [List.filter_cons, hy, hx, ih]
      · by_cases hx : x.2 = s <;> simp [List.filter_cons, hy, hx, ih]

theorem filter_sortPairsDesc {α} (s : ℚ) (l : List (α × ℚ)) :
    (sortPairsDesc l).filter (fun p => decide (p.2 = s)) =
      l.filter (fun p => decide (p.2 = s)) := by
  induction l with
  | nil => rfl
  | cons y ys ih =>
    show (insertPair y (sortPairsDesc ys)).filter _ = _
    rw [filter_insertPair]
    by_cases hy : y.2 = s <;> simp [List.filter_cons, hy, ih]

theorem filter_take_append {α} (p : α → Bool) :
    ∀ (n : ℕ) (l : List α), ∃ t, (l.take n).filter p ++ t = l.filter p := by
  intro n l
  induction l generalizing n with
  | nil => exact ⟨[], by simp⟩
  | cons x xs ih =>
    cases n with
    | zero => exact ⟨(x :: xs).filter p, by simp⟩
    | succ m =>
      obtain ⟨t, ht⟩ := ih m
      by_cases hx : p x
      · exact ⟨t, by simp [List.filter_cons, hx, ht]⟩
      · exact ⟨t, by simp [List.filter_cons, hx, ht]⟩

theorem alookup_mem {κ} [DecidableEq κ] {k : κ} {v : ℚ} :
    ∀ {l : List (κ × ℚ)}, alookup k l = some v → (k, v) ∈ l := by
  intro l
  induction l with
  | nil => intro h; exact absurd h (by simp [alookup])
  | cons e es ih =>
    intro h
    rw [alookup] at h
    split at h
    · rename_i heq
      cases h
      exact List.mem_cons.mpr (Or.inl (by rw [heq]))
    · exact List.mem_cons.mpr (Or.inr (ih h))

theorem getD_alookup_nonneg {κ} [DecidableEq κ] {k : κ} {l : List (κ × ℚ)}
    (h : ∀ e ∈ l, 0 ≤ e.2) : 0 ≤ (alookup k l).getD 0 := by
  cases hl : alookup k l with
  | none => simp
  | some v => simpa using h _ (alookup_mem hl)

theorem mem_dedupFirstAux {α} [DecidableEq α] {a : α} :
    ∀ {l seen : List α}, a ∈ dedupFirstAux seen l → a ∈ l := by
  intro l
  induction l with
  | nil => intro seen h; exact absurd h (by simp [dedupFirstAux])
  | cons x xs ih =>
    intro seen h
    rw [dedupFirstAux] at h
    by_cases hx : x ∈ seen
    · rw [if_pos hx] at h
      exact List.mem_cons.mpr (Or.inr (ih h))
    · rw [if_neg hx] at h
      rcases List.mem_cons.mp h with h' | h'
      · exact List.mem_cons.mpr (Or.inl h')
      · exact List.mem_cons.mpr (Or.inr (ih h'))

theorem dedupFirstAux_nodup {α} [DecidableEq α] :
    ∀ (l seen : List α), (dedupFirstAux seen l).Nodup ∧
      ∀ a ∈ dedupFirstAux seen l, a ∉ seen := by
  intro l
  induction l with
  | nil => intro seen; exact ⟨List.nodup_nil, by simp [dedupFirstAux]⟩
  | cons x xs ih =>
    intro seen
    rw [dedupFirstAux]
    by_cases hx : x ∈ seen
    · rw [if_pos hx]
      exact ih seen
    · rw [if_neg hx]
      obtain ⟨hnd, hout⟩ := ih (x :: seen)
      refine ⟨List.nodup_cons.mpr ⟨fun hmem => ?_, hnd⟩, ?_⟩
      · exact (hout x hmem) (List.mem_cons.mpr (Or.inl rfl))
      · intro a ha
        rcases List.mem_cons.mp ha with ha' | ha'
        · exact ha' ▸ hx
        · exact fun hseen => (hout a ha') (List.mem_cons.mpr (Or.inr hseen))

theorem nodup_dedupFirst {α} [DecidableEq α] (l : List α) : (dedupFirst l).Nodup :=
  (dedupFirstAux_nodup l []).1

theorem mem_of_mem_dedupFirst {α} [DecidableEq α] {a : α} {l : List α}
    (h : a ∈ dedupFirst l) : a ∈ l :=
  mem_dedupFirstAux h

/-! ### `firstMatchIdx` (the model of `Array.prototype.findIndex`) -/

theorem firstMatchIdx_eq_none_iff {α} {p : α → Bool} {l : List α} :
    firstMatchIdx p l = none ↔ ∀ x ∈ l, p x = false := by
  induction l with
  | nil => simp [firstMatchIdx]
  | cons x xs ih =>
    rw [firstMatchIdx]
    by_cases hx : p x
    · simp [hx]
    · rw [Bool.not_eq_true] at hx
      simp [hx, ih]

theorem firstMatchIdx_some {α} {p : α → Bool} {d : α} :
    ∀ {l : List α} {i : ℕ}, firstMatchIdx p l = some i →
      i < l.length ∧ p (l.getD i d) = true := by
  intro l
  induction l with
  | nil => intro i h; exact absurd h (by simp [firstMatchIdx])
  | cons x xs ih =>
    intro i h
    rw [firstMatchIdx] at h
    by_cases hx : p x
    · rw [if_pos hx] at h
      cases h
      exact ⟨Nat.succ_pos _, by simpa using hx⟩
    · rw [if_neg hx] at h
      rcases Option.map_eq_some'.mp h with ⟨j, hj, rfl⟩
      obtain ⟨hlen, hp⟩ := ih hj
      exact ⟨Nat.succ_lt_succ hlen, by simpa using hp⟩

/-! ### Structure of the combined vectors -/

theorem length_createGenreVector (b : Book) (gs : List String) :
    (createGenreVector b gs).length = gs.length := by
  unfold createGenreVector
  split <;> simp

theorem keys_combineVectors (tv : List (String × ℚ)) (gv : List ℚ)
    (sv : List (String × ℚ)) (ts ss : List String) :
    (combineVectors tv gv sv ts ss).map Prod.fst =
      ts.map FKey.title ++ (List.range gv.length).map FKey.genre ++ ss.map FKey.syn := by
  simp only [combineVectors, List.map_append, List.map_map, List.append_assoc]
  rfl

theorem combinedVectorsOf_getD {lf : ℚ → ℚ} {vb : List Book} {i : ℕ} (h : i < vb.length) :
    (combinedVectorsOf lf vb).getD i [] =
      combineVectors ((titleTFIDFOf lf vb).getD i []) ((genreVectorsOf vb).getD i [])
        ((synopsisTFIDFOf lf vb).getD i [])
        (allTitleTermsOf lf vb) (allSynopsisTermsOf lf vb) := by
  unfold combinedVectorsOf
  rw [List.getD_eq_getElem _ _ (by simpa using h)]
  simp

theorem genreVectorsOf_getD {vb : List Book} {i : ℕ} (h : i < vb.length) :
    (genreVectorsOf vb).getD i [] =
      createGenreVector (vb.getD i dummyBook) (extractAllGenres vb) := by
  unfold genreVectorsOf
  rw [List.getD_eq_getElem _ _ (by simpa using h), List.getD_eq_getElem _ _ h]
  simp

theorem keys_combinedVectorsOf {lf : ℚ → ℚ} {vb : List Book} {i : ℕ} (h : i < vb.length) :
    ((combinedVectorsOf lf vb).getD i []).map Prod.fst = allKeysOf lf vb := by
  rw [combinedVectorsOf_getD h, keys_combineVectors, genreVectorsOf_getD h,
    length_createGenreVector]
  rfl

theorem nodup_allKeysOf (lf : ℚ → ℚ) (vb : List Book) : (allKeysOf lf vb).Nodup := by
  unfold allKeysOf
  have hinj₁ : Function.Injective FKey.title := fun a b h => by injection h
  have hinj₂ : Function.Injective FKey.genre := fun a b h => by injection h
  have hinj₃ : Function.Injective FKey.syn := fun a b h => by injection h
  refine List.Nodup.append (List.Nodup.append ?_ ?_ ?_) ?_ ?_
  · exact List.Nodup.map hinj₁ (nodup_dedupFirst _)
  · exact List.Nodup.map hinj₂ (List.nodup_range _)
  · rw [List.disjoint_left]
    intro a ha hb
    obtain ⟨t, _, rfl⟩ := List.mem_map.mp ha
    obtain ⟨j, _, hj⟩ := List.mem_map.mp hb
    exact absurd hj (by simp)
  · exact List.Nodup.map hinj₃ (nodup_dedupFirst _)
  · rw [List.disjoint_left]
    intro a ha hb
    rcases List.mem_append.mp ha with ha' | ha'
    · obtain ⟨t, _, rfl⟩ := List.mem_map.mp ha'
      obtain ⟨u, _, hu⟩ := List.mem_map.mp hb
      exact absurd hu (by simp)
    · obtain ⟨j, _, rfl⟩ := List.mem_map.mp ha'
      obtain ⟨u, _, hu⟩ := List.mem_map.mp hb
      exact absurd hu (by simp)

/-! ### Non-negativity of all vector components -/

theorem tfidfVector_nonneg {lf : ℚ → ℚ} (hlog : ∀ q : ℚ, 1 ≤ q → 0 ≤ lf q)
    {docs : List (List String)} {d : List String} (hd : d ∈ docs) :
    ∀ e ∈ tfidfVector lf docs d, 0 ≤ e.2 := by
  intro e he
  obtain ⟨t, ht, rfl⟩ := List.mem_map.mp he
  refine mul_nonneg ?_ ?_
  · unfold termFreq
    exact div_nonneg (Nat.cast_nonneg _) (Nat.cast_nonneg _)
  · unfold idf
    apply hlog
    have htd : t ∈ d := mem_of_mem_dedupFirst ht
    have hdin : d ∈ docs.filter (fun d' => decide (t ∈ d')) :=
      List.mem_filter.mpr ⟨hd, by simpa using htd⟩
    have hdf1 : 1 ≤ docFreq t docs := List.length_pos_of_mem hdin
    have hdfN : docFreq t docs ≤ docs.length := List.length_filter_le _ _
    rw [max_eq_left hdf1]
    have hpos : (0 : ℚ) < (docFreq t docs : ℚ) := by exact_mod_cast hdf1
    rw [le_div_iff hpos, one_mul]
    exact_mod_cast hdfN

theorem calculateTFIDF_getD_nonneg {lf : ℚ → ℚ} (hlog : ∀ q : ℚ, 1 ≤ q → 0 ≤ lf q)
    (texts : List String) (i : ℕ) :
    ∀ e ∈ (calculateTFIDF lf texts).getD i [], 0 ≤ e.2 := by
  unfold calculateTFIDF
  by_cases hi : i < texts.length
  · rw [List.getD_eq_getElem _ _ (by simpa using hi)]
    simp only [List.getElem_map]
    exact tfidfVector_nonneg hlog (List.mem_map_of_mem _ (List.getElem_mem _))
  · rw [List.getD_eq_default _ _ (by simpa using Nat.le_of_not_lt hi)]
    intro e he
    exact absurd he (List.not_mem_nil e)

theorem createGenreVector_nonneg (b : Book) (gs : List String) :
    ∀ v ∈ createGenreVector b gs, 0 ≤ v := by
  intro v hv
  unfold createGenreVector at hv
  split at hv
  · obtain ⟨g, _, rfl⟩ := List.mem_map.mp hv
    split <;> norm_num
  · obtain ⟨g, _, rfl⟩ := List.mem_map.mp hv
    exact le_refl 0

theorem getD_nonneg_of_forall {l : List ℚ} (h : ∀ v ∈ l, 0 ≤ v) (j : ℕ) :
    0 ≤ l.getD j 0 := by
  by_cases hj : j < l.length
  · rw [List.getD_eq_getElem _ _ hj]
    exact h _ (List.getElem_mem _)
  · rw [List.getD_eq_default _ _ (Nat.le_of_not_lt hj)]

theorem combined_entries_nonneg {lf : ℚ → ℚ} (hlog : ∀ q : ℚ, 1 ≤ q → 0 ≤ lf q)
    (vb : List Book) (i : ℕ) :
    ∀ e ∈ (combinedVectorsOf lf vb).getD i [], 0 ≤ e.2 := by
  by_cases hi : i < vb.length
  · rw [combinedVectorsOf_getD hi]
    intro e he
    unfold combineVectors at he
    rcases List.mem_append.mp he with he' | he'
    · rcases List.mem_append.mp he' with he'' | he''
      · obtain ⟨t, _, rfl⟩ := List.mem_map.mp he''
        exact getD_alookup_nonneg (calculateTFIDF_getD_nonneg hlog _ i)
      · obtain ⟨j, _, rfl⟩ := List.mem_map.mp he''
        exact getD_nonneg_of_forall
          (genreVectorsOf_getD hi ▸ createGenreVector_nonneg _ _) j
    · obtain ⟨t, _, rfl⟩ := List.mem_map.mp he'
      exact getD_alookup_nonneg (calculateTFIDF_getD_nonneg hlog _ i)
  · rw [List.getD_eq_default _ _ (by simpa [combinedVectorsOf] using Nat.le_of_not_lt hi)]
    intro e he
    exact absurd he (List.not_mem_nil e)

/-! ### Cosine similarity bounds -/

theorem dotProd_eq_zip :
    ∀ {a b : List (FKey × ℚ)}, a.map Prod.fst = b.map Prod.fst →
      (a.map Prod.fst).Nodup →
      dotProd a b = ((a.zip b).map (fun pq => pq.1.2 * pq.2.2)).sum := by
  intro a
  induction a with
  | nil => intro b hk hnd; rfl
  | cons e as ih =>
    intro b hk hnd
    cases b with
    | nil => exact absurd hk.symm (by simp)
    | cons f bs =>
      rw [List.map_cons, List.map_cons] at hk
      injection hk with h1 h2
      rw [List.map_cons] at hnd
      have hhead : e.1 ∉ as.map Prod.fst := (List.nodup_cons.mp hnd).1
      have hnd' : (as.map Prod.fst).Nodup := (List.nodup_cons.mp hnd).2
      have hlook : alookup e.1 (f :: bs) = some f.2 := by
        rcases f with ⟨fk, fv⟩
        rw [alookup, if_pos (by exact h1)]
      have htail : ∀ x ∈ as, x.2 * (alookup x.1 (f :: bs)).getD 0
          = x.2 * (alookup x.1 bs).getD 0 := by
        intro x hx
        have hxk : x.1 ≠ e.1 := by
          intro hcon
          exact hhead (hcon ▸ List.mem_map_of_mem Prod.fst hx)
        have hne : x.1 ≠ f.1 := fun hc => hxk (hc.trans h1.symm)
        rcases f with ⟨fk, fv⟩
        rw [alookup, if_neg (by exact hne)]
      unfold dotProd
      rw [List.map_cons, List.sum_cons, hlook, List.zip_cons_cons, List.map_cons,
        List.sum_cons, List.map_congr_left htail]
      have := ih (b := bs) h2 hnd'
      unfold dotProd at this
      rw [this]
      simp

theorem list_cauchy_schwarz (l : List (ℚ × ℚ)) :
    ((l.map (fun p => p.1 * p.2)).sum) ^ 2 ≤
      (l.map (fun p => p.1 * p.1)).sum * (l.map (fun p => p.2 * p.2)).sum := by
  have hsum : ∀ (f : ℚ × ℚ → ℚ), (l.map f).sum = ∑ i : Fin l.length, f (l.get i) := by
    intro f
    conv_lhs => rw [← List.ofFn_get l]
    rw [List.map_ofFn, List.sum_ofFn]
    rfl
  rw [hsum, hsum, hsum]
  have hcs := Finset.sum_mul_sq_le_sq_mul_sq Finset.univ
    (fun i : Fin l.length => (l.get i).1) (fun i : Fin l.length => (l.get i).2)
  calc (∑ i : Fin l.length, (l.get i).1 * (l.get i).2) ^ 2
      ≤ (∑ i : Fin l.length, (l.get i).1 ^ 2) * ∑ i : Fin l.length, (l.get i).2 ^ 2 := hcs
    _ = (∑ i : Fin l.length, (l.get i).1 * (l.get i).1) *
        ∑ i : Fin l.length, (l.get i).2 * (l.get i).2 := by
      simp [pow_two]

theorem normSq_nonneg (a : List (FKey × ℚ)) : 0 ≤ normSq a := by
  apply List.sum_nonneg
  intro x hx
  obtain ⟨e, _, rfl⟩ := List.mem_map.mp hx
  exact mul_self_nonneg e.2

theorem cosineSimilarity_bounds (sqrtFn : ℚ → ℚ)
    (hs : ∀ q : ℚ, 0 ≤ q → 0 ≤ sqrtFn q ∧ q ≤ sqrtFn q * sqrtFn q)
    (a b : List (FKey × ℚ)) (hk : a.map Prod.fst = b.map Prod.fst)
    (hnd : (a.map Prod.fst).Nodup)
    (ha : ∀ e ∈ a, 0 ≤ e.2) (hb : ∀ e ∈ b, 0 ≤ e.2) :
    0 ≤ cosineSimilarity sqrtFn a b ∧ cosineSimilarity sqrtFn a b ≤ 1 := by
  unfold cosineSimilarity
  split
  · exact ⟨le_refl 0, zero_le_one⟩
  · rename_i hz
    push_neg at hz
    obtain ⟨hza, hzb⟩ := hz
    have hApos : 0 < normSq a := lt_of_le_of_ne (normSq_nonneg a) (Ne.symm hza)
    have hBpos : 0 < normSq b := lt_of_le_of_ne (normSq_nonneg b) (Ne.symm hzb)
    obtain ⟨hsa0, hsa2⟩ := hs (normSq a) (normSq_nonneg a)
    obtain ⟨hsb0, hsb2⟩ := hs (normSq b) (normSq_nonneg b)
    have hsa_pos : 0 < sqrtFn (normSq a) := by
      rcases lt_or_eq_of_le hsa0 with h | h
      · exact h
      · exact absurd (h ▸ hsa2) (by simpa using hApos)
    have hsb_pos : 0 < sqrtFn (normSq b) := by
      rcases lt_or_eq_of_le hsb0 with h | h
      · exact h
      · exact absurd (h ▸ hsb2) (by simpa using hBpos)
    have hden : 0 < sqrtFn (normSq a) * sqrtFn (normSq b) := mul_pos hsa_pos hsb_pos
    have hdot0 : 0 ≤ dotProd a b := by
      apply List.sum_nonneg
      intro x hx
      obtain ⟨e, he, rfl⟩ := List.mem_map.mp hx
      exact mul_nonneg (ha e he) (getD_alookup_nonneg hb)
    constructor
    · exact div_nonneg hdot0 (le_of_lt hden)
    · rw [div_le_one hden]
      have hlen : a.length = b.length := by
        have := congrArg List.length hk
        simpa using this
      have hzipA : ((a.zip b).map (fun pq => pq.1.2 * pq.1.2)).sum = normSq a := by
        unfold normSq
        have : (a.zip b).map (fun pq => pq.1.2 * pq.1.2)
            = ((a.zip b).map Prod.fst).map (fun e => e.2 * e.2) := by
          rw [List.map_map]
          rfl
        rw [this, List.map_fst_zip _ _ (le_of_eq hlen)]
      have hzipB : ((a.zip b).map (fun pq => pq.2.2 * pq.2.2)).sum = normSq b := by
        unfold normSq
        have : (a.zip b).map (fun pq => pq.2.2 * pq.2.2)
            = ((a.zip b).map Prod.snd).map (fun e => e.2 * e.2) := by
          rw [List.map_map]
          rfl
        rw [this, List.map_snd_zip _ _ (le_of_eq hlen.symm)]
      have hcs := list_cauchy_schwarz ((a.zip b).map (fun pq => (pq.1.2, pq.2.2)))
      rw [List.map_map, List.map_map, List.map_map] at hcs
      have hcs' : (((a.zip b).map (fun pq => pq.1.2 * pq.2.2)).sum) ^ 2 ≤
          normSq a * normSq b := by
        calc (((a.zip b).map (fun pq => pq.1.2 * pq.2.2)).sum) ^ 2
            ≤ (((a.zip b).map (fun pq => pq.1.2 * pq.1.2)).sum)
              * (((a.zip b).map (fun pq => pq.2.2 * pq.2.2)).sum) := hcs
          _ = normSq a * normSq b := by rw [hzipA, hzipB]
      rw [dotProd_eq_zip hk hnd]
      have hsq : normSq a * normSq b ≤
          (sqrtFn (normSq a) * sqrtFn (normSq b)) * (sqrtFn (normSq a) * sqrtFn (normSq b)) := by
        calc normSq a * normSq b
            ≤ (sqrtFn (normSq a) * sqrtFn (normSq a)) * (sqrtFn (normSq b) * sqrtFn (normSq b)) :=
              mul_le_mul hsa2 hsb2 (le_of_lt hBpos) (mul_nonneg hsa0 hsa0)
          _ = (sqrtFn (normSq a) * sqrtFn (normSq b)) * (sqrtFn (normSq a) * sqrtFn (normSq b)) := by
              ring
      have hdotz : 0 ≤ ((a.zip b).map (fun pq => pq.1.2 * pq.2.2)).sum := by
        rw [← dotProd_eq_zip hk hnd]
        exact hdot0
      nlinarith [hcs', hsq, hdotz, hden,
        sq_nonneg (((a.zip b).map (fun pq => pq.1.2 * pq.2.2)).sum
          - sqrtFn (normSq a) * sqrtFn (normSq b))]

/-! ### Decomposition of the two ranked outputs -/

theorem mem_getRecommendations {lf sf : ℚ → ℚ} {tgt : Book} {ab : List Book} {n : ℕ}
    {r : BookWithSimilarity} (h : r ∈ getRecommendations lf sf tgt ab n) :
    ∃ ti i : ℕ,
      firstMatchIdx (fun b => decide (b.id = tgt.id)) (validBooksOf ab) = some ti ∧
      i < (validBooksOf ab).length ∧ i ≠ ti ∧
      r = ⟨(validBooksOf ab).getD i dummyBook,
        cosineSimilarity sf ((combinedVectorsOf lf (validBooksOf ab)).getD ti [])
          ((combinedVectorsOf lf (validBooksOf ab)).getD i [])⟩ := by
  unfold getRecommendations at h
  split at h
  · exact absurd h (List.not_mem_nil r)
  · split at h
    · exact absurd h (List.not_mem_nil r)
    · rename_i ti hfind
      obtain ⟨p, hp, hrp⟩ := List.mem_map.mp h
      have hp' : p ∈ sortPairsDesc (similaritiesOf lf sf (validBooksOf ab) ti) :=
        List.take_subset _ _ hp
      have hp'' := mem_sortPairsDesc hp'
      unfold similaritiesOf at hp''
      obtain ⟨i, hi, hpi⟩ := List.mem_map.mp hp''
      obtain ⟨hir, hine⟩ := List.mem_filter.mp hi
      refine ⟨ti, i, hfind, List.mem_range.mp hir, of_decide_eq_true hine, ?_⟩
      rw [← hrp, ← hpi]

theorem mem_getPersonalized {now : ℚ} {profile : List (String × ℚ)}
    {cb ab : List Book} {n : ℕ} {r : BookWithSimilarity}
    (h : r ∈ getPersonalizedRecommendations now profile cb ab n) :
    ∃ b ∈ cb, r = ⟨b, scoreOf now profile ab b⟩ := by
  unfold getPersonalizedRecommendations at h
  split at h
  · exact absurd h (List.not_mem_nil r)
  · obtain ⟨p, hp, hrp⟩ := List.mem_map.mp h
    have hp' : p ∈ sortPairsDesc (cb.map (fun b => (b, scoreOf now profile ab b))) :=
      List.take_subset _ _ hp
    have hp'' := mem_sortPairsDesc hp'
    obtain ⟨b, hb, hpb⟩ := List.mem_map.mp hp''
    exact ⟨b, hb, by rw [← hrp, ← hpb]⟩

/-! ### Clock dependence of the personalized scorer -/

/-- Two runs of `getPersonalizedRecommendations` with identical caller
arguments but different ambient clock values (epoch 0 and epoch + 365
days) give different scores. -/
theorem gPR_clock_dependence :
    getPersonalizedRecommendations 0 [] [bkClock] [bkClock] 10
      ≠ getPersonalizedRecommendations 31536000000 [] [bkClock] [bkClock] 10 := by
  have h1 : getPersonalizedRecommendations 0 [] [bkClock] [bkClock] 10
      = [⟨bkClock, scoreOf 0 [] [bkClock] bkClock⟩] := rfl
  have h2 : getPersonalizedRecommendations 31536000000 [] [bkClock] [bkClock] 10
      = [⟨bkClock, scoreOf 31536000000 [] [bkClock] bkClock⟩] := rfl
  have hv1 : scoreOf 0 [] [bkClock] bkClock = 3 / 10 := by
    unfold scoreOf
    norm_num [bkClock, genreTruthy, popLookup, maxPopularity, totalProfileWeight,
      List.find?, dedupFirst, dedupFirstAux]
  have hv2 : scoreOf 31536000000 [] [bkClock] bkClock = 0 := by
    unfold scoreOf
    norm_num [bkClock, genreTruthy, popLookup, maxPopularity, totalProfileWeight,
      List.find?, dedupFirst, dedupFirstAux]
  rw [h1, h2, hv1, hv2]
  intro hcon
  have : (3 : ℚ) / 10 = 0 := by
    have := List.cons_eq_cons.mp hcon
    exact congrArg BookWithSimilarity.similarity this.1
  norm_num at this

/-- C1: the claim quantifies over everything outside the caller's
arguments; the recency bonus of `getPersonalizedRecommendations` reads
the ambient clock (`Date.now()`, line 283), so two calls with identical
arguments at different times return different results. -/
theorem claim_C1_counterexample :
    getPersonalizedRecommendations 0 [] [bkClock] [bkClock] 10
      ≠ getPersonalizedRecommendations 31536000000 [] [bkClock] [bkClock] 10 :=
  gPR_clock_dependence

/-- C1 (amended): `getRecommendations` and `getRecommendationsByTitle`
are pure functions of their arguments; `getPersonalizedRecommendations`
is a pure function of its arguments TOGETHER WITH the ambient clock, and
there exist two clock readings at which identical caller arguments give
different results. -/
theorem claim_C1_amended :
    (∀ (lf sf : ℚ → ℚ) (tgt : Book) (ab : List Book) (n : ℕ),
      getRecommendations lf sf tgt ab n = getRecommendations lf sf tgt ab n)
    ∧ (∀ (lf sf : ℚ → ℚ) (q : String) (ab : List Book) (n : ℕ),
      getRecommendationsByTitle lf sf q ab n = getRecommendationsByTitle lf sf q ab n)
    ∧ (∀ (now : ℚ) (profile : List (String × ℚ)) (cb ab : List Book) (n : ℕ),
      getPersonalizedRecommendations now profile cb ab n
        = getPersonalizedRecommendations now profile cb ab n)
    ∧ (∃ (now₁ now₂ : ℚ) (profile : List (String × ℚ)) (cb ab : List Book) (n : ℕ),
      getPersonalizedRecommendations now₁ profile cb ab n
        ≠ getPersonalizedRecommendations now₂ profile cb ab n) :=
  ⟨fun _ _ _ _ _ => rfl, fun _ _ _ _ _ => rfl, fun _ _ _ _ _ => rfl,
    ⟨0, 31536000000, [], [bkClock], [bkClock], 10, gPR_clock_dependence⟩⟩

/-- C3: `getPersonalizedRecommendations` clamps `topN` into `[10, 20]`
and returns exactly `min (pool size) (clamp topN)` items; in particular a
pool of at least 20 books yields between 10 and 20 items. -/
theorem claim_C3 (now : ℚ) (profile : List (String × ℚ)) (cb ab : List Book) (topN : ℕ) :
    (getPersonalizedRecommendations now profile cb ab topN).length
      = min cb.length (min (max topN 10) 20)
    ∧ (20 ≤ cb.length →
      10 ≤ (getPersonalizedRecommendations now profile cb ab topN).length
      ∧ (getPersonalizedRecommendations now profile cb ab topN).length ≤ 20) := by
  have hlen : (getPersonalizedRecommendations now profile cb ab topN).length
      = min cb.length (min (max topN 10) 20) := by
    unfold getPersonalizedRecommendations
    split
    · rename_i h
      simp [h]
    · simp [List.length_map, List.length_take, length_sortPairsDesc]
      omega
  exact ⟨hlen, fun h20 => by rw [hlen]; omega⟩

/-- C3 witness at a pool of exactly 20 books. -/
theorem claim_C3_witness :
    10 ≤ (getPersonalizedRecommendations 0 [] (List.replicate 20 bkW1) [] 10).length
    ∧ (getPersonalizedRecommendations 0 [] (List.replicate 20 bkW1) [] 10).length ≤ 20 :=
  (claim_C3 0 [] (List.replicate 20 bkW1) [] 10).2 (by decide)

/-- C4: every score returned by `getPersonalizedRecommendations` is
0.4 × genreAffinity + 0.3 × popularityScore + 0.3 × recencyScore with the
three components as the spec describes them. -/
theorem claim_C4 (now : ℚ) (profile : List (String × ℚ)) (cb ab : List Book) (topN : ℕ) :
    ∀ r ∈ getPersonalizedRecommendations now profile cb ab topN,
      r.similarity = (4 / 10) * genreAffinity profile r.book
        + (3 / 10) * popularityScore ab r.book + (3 / 10) * recencyScore now r.book := by
  intro r hr
  obtain ⟨b, _, rfl⟩ := mem_getPersonalized hr
  show scoreOf now profile ab b = _
  unfold scoreOf genreAffinity popularityScore recencyScore
  by_cases hg : genreTruthy b.genre_name = true <;> cases hct : b.created_at <;>
    simp [hg, hct] <;> ring

/-- C4 witness on a one-book pool. -/
theorem claim_C4_witness :
    ((getPersonalizedRecommendations 0 [] [bkW1] [bkW1] 10).getD 0 ⟨dummyBook, 0⟩).similarity
      = (4 / 10) * genreAffinity []
          ((getPersonalizedRecommendations 0 [] [bkW1] [bkW1] 10).getD 0 ⟨dummyBook, 0⟩).book
        + (3 / 10) * popularityScore [bkW1]
          ((getPersonalizedRecommendations 0 [] [bkW1] [bkW1] 10).getD 0 ⟨dummyBook, 0⟩).book
        + (3 / 10) * recencyScore 0
          ((getPersonalizedRecommendations 0 [] [bkW1] [bkW1] 10).getD 0 ⟨dummyBook, 0⟩).book :=
  claim_C4 0 [] [bkW1] [bkW1] 10 _ (List.Mem.head _)

/-- C5: the two similarity entry points are total and return the empty
list on an empty corpus, a corpus whose items all lack genre labels, a
target id absent from the valid books, and a query matching no title. -/
theorem claim_C5 :
    (∀ (lf sf : ℚ → ℚ) (tgt : Book) (n : ℕ), getRecommendations lf sf tgt [] n = [])
    ∧ (∀ (lf sf : ℚ → ℚ) (tgt : Book) (ab : List Book) (n : ℕ),
      (∀ b ∈ ab, b.genre_name = none) → getRecommendations lf sf tgt ab n = [])
    ∧ (∀ (lf sf : ℚ → ℚ) (tgt : Book) (ab : List Book) (n : ℕ),
      (∀ b ∈ validBooksOf ab, b.id ≠ tgt.id) → getRecommendations lf sf tgt ab n = [])
    ∧ (∀ (lf sf : ℚ → ℚ) (q : String) (ab : List Book) (n : ℕ),
      (∀ b ∈ ab, titleMatches q b = false) →
      getRecommendationsByTitle lf sf q ab n = []) := by
  refine ⟨fun _ _ _ _ => rfl, ?_, ?_, ?_⟩
  · intro lf sf tgt ab n hall
    have hvb : validBooksOf ab = [] := by
      unfold validBooksOf
      rw [List.filter_eq_nil]
      intro b hb
      rw [hall b hb]
      simp [genreTruthy]
    unfold getRecommendations
    simp [hvb]
  · intro lf sf tgt ab n hid
    have hfind : firstMatchIdx (fun b => decide (b.id = tgt.id)) (validBooksOf ab) = none :=
      firstMatchIdx_eq_none_iff.mpr (fun b hb => by simpa using hid b hb)
    unfold getRecommendations
    split
    · rfl
    · rw [hfind]
  · intro lf sf q ab n hmatch
    have hfind : ab.find? (titleMatches q) = none :=
      List.find?_eq_none.mpr (fun b hb => by simp [hmatch b hb])
    unfold getRecommendationsByTitle
    rw [hfind]

/-- C5 witness: the four scenarios at concrete inputs. -/
theorem claim_C5_witness :
    getRecommendations idLog addOneSqrt bkW1 [] 3 = []
    ∧ getRecommendations idLog addOneSqrt bkW1 [bkNoGenre] 3 = []
    ∧ getRecommendations idLog addOneSqrt bkW3 [bkW1, bkW2] 3 = []
    ∧ getRecommendationsByTitle idLog addOneSqrt "zzz" [bkW1, bkW2] 3 = [] :=
  ⟨claim_C5.1 idLog addOneSqrt bkW1 3,
    claim_C5.2.1 idLog addOneSqrt bkW1 [bkNoGenre] 3 (by decide),
    claim_C5.2.2.1 idLog addOneSqrt bkW3 [bkW1, bkW2] 3 (by decide),
    claim_C5.2.2.2 idLog addOneSqrt "zzz" [bkW1, bkW2] 3 (by decide)⟩

/-- C9: `getRecommendationsByTitle` resolves its target as the first book
in corpus order whose lower-cased title contains the lower-cased query,
and then returns exactly `getRecommendations` of that target over the
same corpus and `topN`. -/
theorem claim_C9 (lf sf : ℚ → ℚ) (q : String) (ab : List Book) (n : ℕ) (t : Book)
    (hfind : ab.find? (titleMatches q) = some t) :
    (titleMatches q t = true
      ∧ ∃ pre post, ab = pre ++ t :: post ∧ ∀ b ∈ pre, titleMatches q b = false)
    ∧ getRecommendationsByTitle lf sf q ab n = getRecommendations lf sf t ab n := by
  constructor
  · obtain ⟨hpt, pre, post, hx, hneg⟩ := List.find?_eq_some.mp hfind
    exact ⟨hpt, pre, post, hx, fun b hb => by simpa using hneg b hb⟩
  · unfold getRecommendationsByTitle
    rw [hfind]

/-- C9 witness: the query "a" resolves to the first book and delegates. -/
theorem claim_C9_witness :
    getRecommendationsByTitle idLog addOneSqrt "a" [bkW1, bkW2] 5
      = getRecommendations idLog addOneSqrt bkW1 [bkW1, bkW2] 5 :=
  (claim_C9 idLog addOneSqrt "a" [bkW1, bkW2] 5 bkW1 (by decide)).2

/-- C10: FALSE as stated. In `[bkM1, bkM2, bkM3]` the first title
matching "x" is `bkM1`, which has no genre labels, and later matching
books do carry genres — yet the result is non-empty, because the valid
book `bkM2` shares `bkM1`'s identifier and is found by the id lookup. -/
theorem claim_C10_counterexample :
    [bkM1, bkM2, bkM3].find? (titleMatches "x") = some bkM1
    ∧ genreTruthy bkM1.genre_name = false
    ∧ bkM2 ∈ [bkM1, bkM2, bkM3] ∧ titleMatches "x" bkM2 = true
    ∧ genreTruthy bkM2.genre_name = true
    ∧ getRecommendationsByTitle idLog addOneSqrt "x" [bkM1, bkM2, bkM3] 5 ≠ [] := by
  refine ⟨by decide, by decide, by decide, by decide, by decide, ?_⟩
  have hout : getRecommendationsByTitle idLog addOneSqrt "x" [bkM1, bkM2, bkM3] 5
      = [⟨bkM3, cosineSimilarity addOneSqrt
          ((combinedVectorsOf idLog (validBooksOf [bkM1, bkM2, bkM3])).getD 0 [])
          ((combinedVectorsOf idLog (validBooksOf [bkM1, bkM2, bkM3])).getD 1 [])⟩] := rfl
  rw [hout]
  exact List.cons_ne_nil _ _

/-- C10 (amended): if the first title match has no genre labels AND no
genre-carrying book shares its identifier, then
`getRecommendationsByTitle` returns the empty list. -/
theorem claim_C10_amended (lf sf : ℚ → ℚ) (q : String) (ab : List Book) (n : ℕ) (t : Book)
    (hfind : ab.find? (titleMatches q) = some t)
    (hinv : genreTruthy t.genre_name = false)
    (hid : ∀ b ∈ validBooksOf ab, b.id ≠ t.id) :
    getRecommendationsByTitle lf sf q ab n = [] := by
  unfold getRecommendationsByTitle
  rw [hfind]
  show getRecommendations lf sf t ab n = []
  unfold getRecommendations
  split
  · rfl
  · rw [firstMatchIdx_eq_none_iff.mpr (fun b hb => by simpa using hid b hb)]

/-- C10 witness: an invalid first match whose id no valid book shares. -/
theorem claim_C10_witness :
    getRecommendationsByTitle idLog addOneSqrt "q" [bkInv, bkVal] 5 = [] :=
  claim_C10_amended idLog addOneSqrt "q" [bkInv, bkVal] 5 bkInv
    (by decide) (by decide) (by decide)

/-- C2: FALSE as stated. With two valid books sharing identifier 1, the
target's identifier occurs in the corpus, yet the result contains a book
with that identifier: only the first index with the target's id is
skipped, and the duplicate is ranked. -/
theorem claim_C2_counterexample :
    bkW1.id ∈ [bkW1, bkDup].map (fun b => b.id)
    ∧ bkW1.id ∈ (getRecommendations idLog addOneSqrt bkW1 [bkW1, bkDup] 1).map
        (fun r => r.book.id) := by
  constructor
  · decide
  · have hout : getRecommendations idLog addOneSqrt bkW1 [bkW1, bkDup] 1
        = [⟨bkDup, cosineSimilarity addOneSqrt
            ((combinedVectorsOf idLog (validBooksOf [bkW1, bkDup])).getD 0 [])
            ((combinedVectorsOf idLog (validBooksOf [bkW1, bkDup])).getD 1 [])⟩] := rfl
    rw [hout]
    decide

/-- C2 (amended): when the valid books carry pairwise-distinct
identifiers, a target whose identifier occurs in the corpus is never part
of its own recommendation list. -/
theorem claim_C2_amended (lf sf : ℚ → ℚ) (tgt : Book) (ab : List Book) (n : ℕ)
    (hnodup : ((validBooksOf ab).map (fun b => b.id)).Nodup)
    (hocc : tgt.id ∈ ab.map (fun b => b.id)) :
    ∀ r ∈ getRecommendations lf sf tgt ab n, r.book.id ≠ tgt.id := by
  intro r hr
  obtain ⟨ti, i, hfind, hilen, hine, rfl⟩ := mem_getRecommendations hr
  intro hcon
  obtain ⟨htilen, hpti⟩ := firstMatchIdx_some (d := dummyBook) hfind
  have hpti' : ((validBooksOf ab).getD ti dummyBook).id = tgt.id := of_decide_eq_true hpti
  have hgi : ((validBooksOf ab).map (fun b => b.id)).get ⟨i, by simpa using hilen⟩
      = ((validBooksOf ab).map (fun b => b.id)).get ⟨ti, by simpa using htilen⟩ := by
    rw [List.get_eq_getElem, List.get_eq_getElem, List.getElem_map, List.getElem_map,
      ← List.getD_eq_getElem _ dummyBook hilen, ← List.getD_eq_getElem _ dummyBook htilen]
    show ((validBooksOf ab).getD i dummyBook).id = ((validBooksOf ab).getD ti dummyBook).id
    rw [hpti']
    exact hcon
  exact hine (congrArg Fin.val (hnodup.get_inj_iff.mp hgi))

/-- C2 witness: distinct ids, the single recommendation is not the target. -/
theorem claim_C2_witness :
    ((getRecommendations idLog addOneSqrt bkW1 [bkW1, bkW2] 5).getD 0
      ⟨dummyBook, 0⟩).book.id ≠ bkW1.id :=
  claim_C2_amended idLog addOneSqrt bkW1 [bkW1, bkW2] 5 (by decide) (by decide)
    _ (List.Mem.head _)

/-- C6: within one call, every valid book's combined vector has exactly
the canonical key list — one title key per title-vocabulary term, one
genre key per genre-vocabulary index, one synopsis key per
synopsis-vocabulary term — so all vectors share one key set. -/
theorem claim_C6 (lf : ℚ → ℚ) (ab : List Book) :
    ∀ v ∈ combinedVectorsOf lf (validBooksOf ab),
      v.map Prod.fst = allKeysOf lf (validBooksOf ab) := by
  intro v hv
  unfold combinedVectorsOf at hv
  obtain ⟨i, hi, rfl⟩ := List.mem_map.mp hv
  have hi' : i < (validBooksOf ab).length := List.mem_range.mp hi
  rw [← combinedVectorsOf_getD hi']
  exact keys_combinedVectorsOf hi'

/-- C6 witness: the first combined vector of a concrete two-book call. -/
theorem claim_C6_witness :
    ((combinedVectorsOf idLog (validBooksOf [bkW1, bkW2])).getD 0 []).map Prod.fst
      = allKeysOf idLog (validBooksOf [bkW1, bkW2]) :=
  claim_C6 idLog [bkW1, bkW2] _ (List.Mem.head _)

/-- C7: with `logFn` non-negative on `[1, ∞)` and `sqrtFn` non-negative
with square dominating its argument on `[0, ∞)` (both true of the real
`Math.log` and `Math.sqrt`), every similarity in the result of
`getRecommendations` lies in `[0, 1]`. -/
theorem claim_C7 (lf sf : ℚ → ℚ) (hlog : ∀ q : ℚ, 1 ≤ q → 0 ≤ lf q)
    (hsqrt : ∀ q : ℚ, 0 ≤ q → 0 ≤ sf q ∧ q ≤ sf q * sf q)
    (tgt : Book) (ab : List Book) (n : ℕ) :
    ∀ r ∈ getRecommendations lf sf tgt ab n,
      0 ≤ r.similarity ∧ r.similarity ≤ 1 := by
  intro r hr
  obtain ⟨ti, i, hfind, hilen, _, rfl⟩ := mem_getRecommendations hr
  obtain ⟨htilen, _⟩ := firstMatchIdx_some (d := dummyBook) hfind
  exact cosineSimilarity_bounds sf hsqrt _ _
    ((keys_combinedVectorsOf htilen).trans (keys_combinedVectorsOf hilen).symm)
    (by rw [keys_combinedVectorsOf htilen]; exact nodup_allKeysOf lf (validBooksOf ab))
    (combined_entries_nonneg hlog _ ti) (combined_entries_nonneg hlog _ i)

/-- C7 witness: the one similarity of a concrete two-book call. -/
theorem claim_C7_witness :
    0 ≤ ((getRecommendations idLog addOneSqrt bkW1 [bkW1, bkW2] 5).getD 0
      ⟨dummyBook, 0⟩).similarity
    ∧ ((getRecommendations idLog addOneSqrt bkW1 [bkW1, bkW2] 5).getD 0
      ⟨dummyBook, 0⟩).similarity ≤ 1 := by
  have hlog : ∀ q : ℚ, 1 ≤ q → 0 ≤ idLog q := fun q hq => le_trans zero_le_one hq
  have hsqrt : ∀ q : ℚ, 0 ≤ q → 0 ≤ addOneSqrt q ∧ q ≤ addOneSqrt q * addOneSqrt q := by
    intro q hq
    unfold addOneSqrt
    constructor
    · linarith
    · nlinarith
  exact claim_C7 idLog addOneSqrt hlog hsqrt bkW1 [bkW1, bkW2] 5 _ (List.Mem.head _)

/-- C8: stable tie-break. For any score value `s`, the equal-`s` entries
of either ranked output are, in order, an initial segment of the
equal-`s` entries of the corresponding pre-sort candidate list (which
lists candidates in input corpus/pool order): the descending sort never
reorders ties and the `topN` cut only drops a suffix. -/
theorem claim_C8 (lf sf : ℚ → ℚ) (tgt : Book) (ab : List Book) (n : ℕ) (s : ℚ)
    (now : ℚ) (profile : List (String × ℚ)) (cb ab2 : List Book) (m : ℕ) :
    (∃ t2, ((getRecommendations lf sf tgt ab n).map (fun r => (r.book, r.similarity))).filter
        (fun p => decide (p.2 = s)) ++ t2
      = (recCandidatesOf lf sf tgt ab).filter (fun p => decide (p.2 = s)))
    ∧ (∃ t2, ((getPersonalizedRecommendations now profile cb ab2 m).map
        (fun r => (r.book, r.similarity))).filter (fun p => decide (p.2 = s)) ++ t2
      = (cb.map (fun b => (b, scoreOf now profile ab2 b))).filter
          (fun p => decide (p.2 = s))) := by
  constructor
  · by_cases hlen : (validBooksOf ab).length = 0
    · have hnil : validBooksOf ab = [] := List.length_eq_zero.mp hlen
      refine ⟨[], ?_⟩
      simp [getRecommendations, recCandidatesOf, firstMatchIdx, hnil, hlen]
    · cases hfind : firstMatchIdx (fun b => decide (b.id = tgt.id)) (validBooksOf ab) with
      | none =>
        refine ⟨[], ?_⟩
        unfold getRecommendations recCandidatesOf
        rw [if_neg hlen, hfind]
        simp
      | some ti =>
        unfold getRecommendations recCandidatesOf
        rw [if_neg hlen, hfind]
        show ∃ t2, ((((sortPairsDesc (similaritiesOf lf sf (validBooksOf ab) ti)).take n).map
            (fun p => (⟨p.1, p.2⟩ : BookWithSimilarity))).map
            (fun r => (r.book, r.similarity))).filter (fun p => decide (p.2 = s)) ++ t2
          = (similaritiesOf lf sf (validBooksOf ab) ti).filter (fun p => decide (p.2 = s))
        rw [List.map_map]
        have hid2 : ((fun r : BookWithSimilarity => (r.book, r.similarity))
            ∘ (fun p : Book × ℚ => (⟨p.1, p.2⟩ : BookWithSimilarity))) = id :=
          funext fun p => rfl
        rw [hid2, List.map_id]
        obtain ⟨t2, ht2⟩ := filter_take_append (fun p => decide (p.2 = s)) n
          (sortPairsDesc (similaritiesOf lf sf (validBooksOf ab) ti))
        exact ⟨t2, by rw [ht2, filter_sortPairsDesc]⟩
  · by_cases hlen : cb.length = 0
    · have hnil : cb = [] := List.length_eq_zero.mp hlen
      refine ⟨[], ?_⟩
      simp [getPersonalizedRecommendations, hnil]
    · unfold getPersonalizedRecommendations
      rw [if_neg hlen]
      rw [List.map_map]
      have hid2 : ((fun r : BookWithSimilarity => (r.book, r.similarity))
          ∘ (fun p : Book × ℚ => (⟨p.1, p.2⟩ : BookWithSimilarity))) = id :=
        funext fun p => rfl
      rw [hid2, List.map_id]
      obtain ⟨t2, ht2⟩ := filter_take_append (fun p => decide (p.2 = s)) (min (max m 10) 20)
        (sortPairsDesc (cb.map (fun b => (b, scoreOf now profile ab2 b))))
      exact ⟨t2, by rw [ht2, filter_sortPairsDesc]⟩
